import Mathlib

/-!
Shallow embedding of the JSX semantic query layer of
`crates/biome_js_syntax/src/jsx_ext.rs`.

Modelling conventions:
- a token is modelled by its trimmed text (`text_trimmed()` strips trivia);
- rowan's fallible slot accessors (`SyntaxResult`) are modelled by `Except`
  over a `SyntaxError` type, and optional children by `Option` exactly where
  the generated AST accessors return `SyntaxResult` / `Option`;
- node equality (`==` on rowan AST nodes compares the underlying node, so two
  structurally identical attributes at different source positions are
  distinct) is modelled by structural equality on a record that carries the
  node's source `range`.
-/

set_option linter.unusedVariables false

namespace Biome

/-- Rowan syntax error raised when a required child node or token is absent
from the red-green tree (partial or malformed source). -/
inductive SyntaxError
  | missingRequiredChild
deriving DecidableEq, Repr

/-- Model of `biome_rowan::SyntaxResult`. -/
abbrev SyntaxResult (α : Type) := Except SyntaxError α

/-- Modelled from the spec: the `StaticValue` constant domain of the Static
Value Resolver (`static_value.rs` is not among the provided sources).
Variants: StringConst, BooleanConst, NullConst, UndefinedConst; a string
constant stores its unquoted text. -/
inductive StaticValue
  | stringConst (value : String)
  | booleanConst (value : Bool)
  | nullConst
  | undefinedConst
deriving DecidableEq, Repr

/-- Modelled from the spec: `is_falsy` is true for BooleanConst(false),
StringConst(""), NullConst, UndefinedConst; false otherwise. -/
def StaticValue.is_falsy : StaticValue → Bool
  | .booleanConst b => !b
  | .stringConst s => s == ""
  | .nullConst => true
  | .undefinedConst => true

/-- Modelled from the spec: the literal text of a static value; for a string
constant this is its unquoted text (the examples require
`aria-hidden="false"` to have text exactly `false`). -/
def StaticValue.text : StaticValue → String
  | .stringConst s => s
  | .booleanConst b => if b then "true" else "false"
  | .nullConst => "null"
  | .undefinedConst => "undefined"

/-- Modelled from the spec: expressions, as seen by the Static Value Resolver.
Only literal string/boolean/null/undefined forms fold to a constant; every
other expression shape (identifiers, calls, member access, ...) is a single
opaque non-static form, since nothing in the embedded code distinguishes
them. -/
inductive AnyJsExpression
  | stringLiteral (value : String)
  | booleanLiteral (value : Bool)
  | nullLiteral
  | undefinedLiteral
  | otherNonStatic
deriving DecidableEq, Repr

/-- Modelled from the spec: `as_static_value` folds literal forms to the
constant domain; anything else is "not static" — never guessed. -/
def AnyJsExpression.as_static_value : AnyJsExpression → Option StaticValue
  | .stringLiteral s => some (.stringConst s)
  | .booleanLiteral b => some (.booleanConst b)
  | .nullLiteral => some .nullConst
  | .undefinedLiteral => some .undefinedConst
  | .otherNonStatic => none

/-- A `JsxName` node; `value_token()` returns `SyntaxResult<SyntaxToken>`,
modelled as an optional trimmed text. -/
structure JsxName where
  value_token : Option String
deriving DecidableEq, Repr

/-- `AnyJsxAttributeName = JsxName | JsxNamespaceName`. -/
inductive AnyJsxAttributeName
  | jsxName (name : JsxName)
  | jsxNamespaceName (namespace_name : Option JsxName) (local_name : Option JsxName)
deriving DecidableEq, Repr

/-- Model of the generated `as_jsx_name` cast on attribute names. -/
def AnyJsxAttributeName.as_jsx_name : AnyJsxAttributeName → Option JsxName
  | .jsxName n => some n
  | .jsxNamespaceName _ _ => none

/-- `AnyJsxAttributeValue = AnyJsxTag | JsxExpressionAttributeValue | JsxString`.
The tag payload is never inspected by any embedded function
(`as_static_value` returns `None` for it unconditionally), so it is elided. -/
inductive AnyJsxAttributeValue
  | anyJsxTag
  | jsxExpressionAttributeValue (expression : Option AnyJsExpression)
  | jsxString (value_token : Option String)
deriving DecidableEq, Repr

/-- `AnyJsxAttributeValue::as_static_value` (jsx_ext.rs lines 526-536). -/
def AnyJsxAttributeValue.as_static_value : AnyJsxAttributeValue → Option StaticValue
  | .anyJsxTag => none
  | .jsxExpressionAttributeValue e => e.bind AnyJsExpression.as_static_value
  | .jsxString tok => tok.map StaticValue.stringConst

/-- Initializer clause `= value`; `value()` is fallible (`SyntaxResult`). -/
structure JsxAttributeInitializerClause where
  value : Option AnyJsxAttributeValue
deriving DecidableEq, Repr

/-- A named JSX attribute. `range` models the node's source position, making
structural equality coincide with rowan node equality; `name()` and the
initializer are fallible/optional as in the generated AST. -/
structure JsxAttribute where
  range : Nat
  name : Option AnyJsxAttributeName
  initializer : Option JsxAttributeInitializerClause
deriving DecidableEq, Repr

/-- `JsxAttribute::as_static_value` (jsx_ext.rs lines 487-489):
`self.initializer()?.value().ok()?.as_static_value()`. -/
def JsxAttribute.as_static_value (a : JsxAttribute) : Option StaticValue :=
  (a.initializer.bind JsxAttributeInitializerClause.value).bind
    AnyJsxAttributeValue.as_static_value

/-- The plain-name text used by attribute lookup:
`attribute.name().ok().and_then(|x| x.as_jsx_name()?.value_token().ok())`. -/
def JsxAttribute.jsx_name_text (a : JsxAttribute) : Option String :=
  (a.name.bind AnyJsxAttributeName.as_jsx_name).bind JsxName.value_token

/-- `AnyJsxAttribute = JsxAttribute | JsxSpreadAttribute`. -/
inductive AnyJsxAttribute
  | jsxAttribute (att : JsxAttribute)
  | jsxSpreadAttribute (expression : AnyJsExpression)
deriving DecidableEq, Repr

/-- An attribute list, in source order. -/
abbrev JsxAttributeList := List AnyJsxAttribute

/-- The closure at the heart of `JsxAttributeList::find_by_name`
(jsx_ext.rs lines 302-311): cast to `JsxAttribute` (spreads fail the cast),
take the name, cast to plain `JsxName` (namespaced names fail), take its
token and compare the trimmed text. -/
def find_by_name_matcher (name_to_lookup : String) : AnyJsxAttribute → Option JsxAttribute
  | .jsxSpreadAttribute _ => none
  | .jsxAttribute att =>
    match att.jsx_name_text with
    | some name => if name == name_to_lookup then some att else none
    | none => none

/-- `JsxAttributeList::find_by_name` (jsx_ext.rs lines 301-314). The result is
wrapped in `Ok` unconditionally, exactly as in the source. -/
def JsxAttributeList.find_by_name (list : JsxAttributeList) (name_to_lookup : String) :
    SyntaxResult (Option JsxAttribute) :=
  Except.ok (list.findSome? (find_by_name_matcher name_to_lookup))

/-- Loop of `JsxAttributeList::has_trailing_spread_prop`
(jsx_ext.rs lines 316-330), with the `current_attribute_found` flag made
explicit. -/
def has_trailing_spread_prop_loop (current_attribute : JsxAttribute) :
    JsxAttributeList → Bool → Bool
  | [], _ => false
  | .jsxAttribute att :: rest, current_attribute_found =>
    if att == current_attribute then
      has_trailing_spread_prop_loop current_attribute rest true
    else
      has_trailing_spread_prop_loop current_attribute rest current_attribute_found
  | .jsxSpreadAttribute _ :: rest, current_attribute_found =>
    if current_attribute_found then true
    else has_trailing_spread_prop_loop current_attribute rest current_attribute_found

/-- `JsxAttributeList::has_trailing_spread_prop` (jsx_ext.rs lines 316-330). -/
def JsxAttributeList.has_trailing_spread_prop (list : JsxAttributeList)
    (current_attribute : JsxAttribute) : Bool :=
  has_trailing_spread_prop_loop current_attribute list false

/-- Caller-contract violations of `find_by_names`, checked by the two
`debug_assert!`s at jsx_ext.rs lines 267-268 before the list is scanned. -/
inductive ContractViolation
  | duplicateNames
  | tooManyNames
deriving DecidableEq, Repr

/-- Inner loop of `find_by_names` (jsx_ext.rs lines 283-293): walk the slots
in order, fill the first still-empty slot whose requested name equals `name`,
and report whether some slot was filled. -/
def fillSlot (name : String) (att : JsxAttribute) :
    List String → List (Option JsxAttribute) → Option (List (Option JsxAttribute))
  | [], _ => none
  | _ :: _, [] => none
  | n :: ns, r :: rs =>
    if r.isNone && n == name then some (some att :: rs)
    else
      match fillSlot name att ns rs with
      | some rs2 => some (r :: rs2)
      | none => none

/-- Outer loop of `find_by_names` (jsx_ext.rs lines 275-296). The source
breaks out of the scan when the last missing slot is filled (`missing == 1`);
since `missing` always equals the number of empty slots, this is the same as
stopping when, right after a fill, every slot is full. -/
def find_by_names_loop (names_to_lookup : List String) :
    JsxAttributeList → List (Option JsxAttribute) → List (Option JsxAttribute)
  | [], results => results
  | .jsxSpreadAttribute _ :: rest, results =>
    find_by_names_loop names_to_lookup rest results
  | .jsxAttribute att :: rest, results =>
    match att.jsx_name_text with
    | none => find_by_names_loop names_to_lookup rest results
    | some name =>
      match fillSlot name att names_to_lookup results with
      | none => find_by_names_loop names_to_lookup rest results
      | some results2 =>
        if results2.all Option.isSome then results2
        else find_by_names_loop names_to_lookup rest results2

/-- `JsxAttributeList::find_by_names` (jsx_ext.rs lines 262-299). The two
`debug_assert!`s (pairwise-distinct names, at most 16 names) fire before the
scan; a failed assertion is a caller-contract panic, modelled as an
`Except.error` distinct from the ordinary `none`-filled success. -/
def JsxAttributeList.find_by_names (list : JsxAttributeList)
    (names_to_lookup : List String) :
    Except ContractViolation (List (Option JsxAttribute)) :=
  if names_to_lookup.Nodup then
    if names_to_lookup.length ≤ 16 then
      Except.ok (find_by_names_loop names_to_lookup list (names_to_lookup.map fun _ => none))
    else Except.error ContractViolation.tooManyNames
  else Except.error ContractViolation.duplicateNames

/-- `AnyJsxElementName = JsxMemberName | JsxName | JsxNamespaceName |
JsxReferenceIdentifier`. -/
inductive AnyJsxElementName
  | jsxMemberName (member : Option JsxName)
  | jsxName (name : JsxName)
  | jsxNamespaceName (local_name : Option JsxName)
  | jsxReferenceIdentifier (value_token : Option String)
deriving DecidableEq, Repr

/-- Model of the generated `as_jsx_name` cast on element names. -/
def AnyJsxElementName.as_jsx_name : AnyJsxElementName → Option JsxName
  | .jsxName n => some n
  | _ => none

/-- A `JsxOpeningElement`: its `name()` is fallible, its attribute list is
always present. -/
structure JsxOpeningElement where
  name : Option AnyJsxElementName
  attributes : JsxAttributeList
deriving DecidableEq, Repr

/-- A `JsxSelfClosingElement`: same shape as an opening element. -/
structure JsxSelfClosingElement where
  name : Option AnyJsxElementName
  attributes : JsxAttributeList
deriving DecidableEq, Repr

/-- The node union `AnyJsxElement = JsxOpeningElement | JsxSelfClosingElement`
(jsx_ext.rs lines 344-346). -/
inductive AnyJsxElement
  | jsxOpeningElement (element : JsxOpeningElement)
  | jsxSelfClosingElement (element : JsxSelfClosingElement)
deriving DecidableEq, Repr

/-- `AnyJsxElement::name` (jsx_ext.rs lines 349-354). -/
def AnyJsxElement.name : AnyJsxElement → Option AnyJsxElementName
  | .jsxOpeningElement e => e.name
  | .jsxSelfClosingElement e => e.name

/-- `AnyJsxElement::attributes` (jsx_ext.rs lines 356-361). -/
def AnyJsxElement.attributes : AnyJsxElement → JsxAttributeList
  | .jsxOpeningElement e => e.attributes
  | .jsxSelfClosingElement e => e.attributes

/-- `AnyJsxElement::is_custom_component` (jsx_ext.rs lines 371-373):
`self.name().map_or(false, |it| it.as_jsx_name().is_none())`. -/
def AnyJsxElement.is_custom_component (el : AnyJsxElement) : Bool :=
  match el.name with
  | none => false
  | some it => it.as_jsx_name.isNone

/-- `AnyJsxElement::is_element` (jsx_ext.rs lines 379-381):
`self.name().map_or(false, |it| it.as_jsx_name().is_some())`. -/
def AnyJsxElement.is_element (el : AnyJsxElement) : Bool :=
  match el.name with
  | none => false
  | some it => it.as_jsx_name.isSome

/-- `AnyJsxElement::has_trailing_spread_prop` (jsx_ext.rs lines 389-398); both
union arms delegate to the attribute list. -/
def AnyJsxElement.has_trailing_spread_prop (el : AnyJsxElement)
    (current_attribute : JsxAttribute) : Bool :=
  JsxAttributeList.has_trailing_spread_prop el.attributes current_attribute

/-- `AnyJsxElement::find_attribute_by_name` (jsx_ext.rs lines 400-409); both
union arms delegate to `find_by_name` and flatten the `SyntaxResult` with
`.ok()?`. -/
def AnyJsxElement.find_attribute_by_name (el : AnyJsxElement)
    (name_to_lookup : String) : Option JsxAttribute :=
  match JsxAttributeList.find_by_name el.attributes name_to_lookup with
  | .ok o => o
  | .error _ => none

/-- `AnyJsxElement::has_truthy_attribute` (jsx_ext.rs lines 470-478). -/
def AnyJsxElement.has_truthy_attribute (el : AnyJsxElement)
    (name_to_lookup : String) : Bool :=
  match el.find_attribute_by_name name_to_lookup with
  | none => false
  | some att =>
    (match att.as_static_value with
     | none => true
     | some value => !(value.is_falsy || value.text == "false")) &&
    !(el.has_trailing_spread_prop att)

/-- `AnyJsxChild`: the child forms distinguished by `is_accessible_node`
(jsx_ext.rs lines 541-573); every remaining variant of the union is the
catch-all `otherChild`. A `JsxElement` child owns a fallible opening element
and its children. -/
inductive AnyJsxChild
  | jsxText (value_token : Option String)
  | jsxExpressionChild (expression : Option AnyJsExpression)
  | jsxElement (opening_element : Option JsxOpeningElement) (children : List AnyJsxChild)
  | jsxSelfClosingElement (element : JsxSelfClosingElement)
  | jsxFragment (children : List AnyJsxChild)
  | otherChild

mutual

/-- `AnyJsxChild::is_accessible_node` (jsx_ext.rs lines 541-573). In the
`JsxElement` arm the source casts the opening element into `AnyJsxElement`;
that cast always succeeds, so it is modelled by direct construction. -/
def AnyJsxChild.is_accessible_node : AnyJsxChild → Option Bool
  | .jsxText none => none
  | .jsxText (some value_token) => some (value_token.trim != "")
  | .jsxExpressionChild none => none
  | .jsxExpressionChild (some expression) =>
    some (match expression.as_static_value with
          | none => true
          | some value => !value.is_falsy)
  | .jsxElement none _children => none
  | .jsxElement (some opening_element) _children =>
    some ((AnyJsxElement.jsxOpeningElement opening_element).is_custom_component
      || !(AnyJsxElement.jsxOpeningElement opening_element).has_truthy_attribute "aria-hidden")
  | .jsxSelfClosingElement element =>
    some ((AnyJsxElement.jsxSelfClosingElement element).is_custom_component
      || !(AnyJsxElement.jsxSelfClosingElement element).has_truthy_attribute "aria-hidden")
  | .jsxFragment children => some (any_accessible_child children)
  | .otherChild => some true

/-- The fragment arm's `children().any(|child| child.is_accessible_node().unwrap_or(true))`,
unfolded into the recursion it performs. -/
def any_accessible_child : List AnyJsxChild → Bool
  | [] => false
  | child :: rest => (child.is_accessible_node).getD true || any_accessible_child rest

end

/-! Concrete tree fixtures used by witnesses and counterexamples. -/

/-- A bare `alt` attribute (boolean shorthand, no initializer). -/
def altAttr : JsxAttribute :=
  { range := 0, name := some (.jsxName ⟨some "alt"⟩), initializer := none }

/-- A bare `src` attribute. -/
def srcAttr : JsxAttribute :=
  { range := 1, name := some (.jsxName ⟨some "src"⟩), initializer := none }

/-- A namespaced attribute `xlink:href` with local name text `href`. -/
def xlinkHrefAttr : JsxAttribute :=
  { range := 2
    name := some (.jsxNamespaceName (some ⟨some "xlink"⟩) (some ⟨some "href"⟩))
    initializer := none }

/-- The attribute `aria-hidden="false"` (string-literal value). -/
def ariaHiddenFalseAttr : JsxAttribute :=
  { range := 3
    name := some (.jsxName ⟨some "aria-hidden"⟩)
    initializer := some ⟨some (.jsxString (some "false"))⟩ }

/-- The bare attribute `aria-hidden` (boolean shorthand, no initializer). -/
def ariaHiddenBareAttr : JsxAttribute :=
  { range := 4, name := some (.jsxName ⟨some "aria-hidden"⟩), initializer := none }

/-- A spread attribute `{...props}` with a non-static expression. -/
def spreadAttr : AnyJsxAttribute := .jsxSpreadAttribute .otherNonStatic

/-- The element `<div aria-hidden="false" />`. -/
def ariaHiddenFalseElement : AnyJsxElement :=
  .jsxSelfClosingElement
    { name := some (.jsxName ⟨some "div"⟩)
      attributes := [AnyJsxAttribute.jsxAttribute ariaHiddenFalseAttr] }

/-- The element `<div aria-hidden />`. -/
def ariaHiddenBareElement : AnyJsxElement :=
  .jsxSelfClosingElement
    { name := some (.jsxName ⟨some "div"⟩)
      attributes := [AnyJsxAttribute.jsxAttribute ariaHiddenBareAttr] }

/-- A malformed element whose name slot is structurally missing. -/
def namelessElement : AnyJsxElement :=
  .jsxOpeningElement { name := none, attributes := [] }

/-- The element `<div />` with a plain tag name. -/
def divElement : AnyJsxElement :=
  .jsxSelfClosingElement { name := some (.jsxName ⟨some "div"⟩), attributes := [] }

/-- An attribute list `alt {...props}`: the spread trails `alt`. -/
def altThenSpreadList : JsxAttributeList :=
  [AnyJsxAttribute.jsxAttribute altAttr, spreadAttr]

/-- An attribute list `{...props} alt`: the spread precedes `alt`, which is
the last entry. -/
def spreadThenAltList : JsxAttributeList :=
  [spreadAttr, AnyJsxAttribute.jsxAttribute altAttr]

/-! Lemmas about `has_trailing_spread_prop` (claim C3). -/

/-- Once the current attribute has been found, the loop returns true exactly
when some spread attribute occurs in the remaining suffix. -/
theorem has_trailing_spread_prop_loop_true_iff (cur : JsxAttribute) (L : JsxAttributeList) :
    has_trailing_spread_prop_loop cur L true = true ↔
      ∃ (j : Nat) (e : AnyJsExpression), L[j]? = some (AnyJsxAttribute.jsxSpreadAttribute e) := by
  induction L with
  | nil => simp [has_trailing_spread_prop_loop]
  | cons x rest ih =>
    cases x with
    | jsxAttribute a =>
      have hstep : has_trailing_spread_prop_loop cur (AnyJsxAttribute.jsxAttribute a :: rest) true
          = has_trailing_spread_prop_loop cur rest true := by
        simp only [has_trailing_spread_prop_loop]
        split <;> rfl
      rw [hstep, ih]
      constructor
      · rintro ⟨j, e, hj⟩
        exact ⟨j + 1, e, by simpa using hj⟩
      · rintro ⟨j, e, hj⟩
        cases j with
        | zero => simp at hj
        | succ j => exact ⟨j, e, by simpa using hj⟩
    | jsxSpreadAttribute s =>
      simp only [has_trailing_spread_prop_loop, if_pos]
      constructor
      · intro _
        exact ⟨0, s, by simp⟩
      · intro _
        trivial

/-- Claim C3: `has_trailing_spread_prop(L, a)` is true iff a spread attribute
occurs strictly after the position of `a` in `L`; in particular it is false
when `a` is the last entry, whatever precedes it. The position hypothesis and
its uniqueness model rowan node identity: a real attribute node occurs at a
single source position of its list. -/
theorem has_trailing_spread_prop_position
    (L : JsxAttributeList) (a : JsxAttribute) (i : Nat)
    (hi : L[i]? = some (AnyJsxAttribute.jsxAttribute a))
    (huniq : ∀ j, L[j]? = some (AnyJsxAttribute.jsxAttribute a) → j = i) :
    JsxAttributeList.has_trailing_spread_prop L a = true ↔
      ∃ (j : Nat) (e : AnyJsExpression), i < j ∧ L[j]? = some (AnyJsxAttribute.jsxSpreadAttribute e) := by
  unfold JsxAttributeList.has_trailing_spread_prop
  induction L generalizing i with
  | nil => simp at hi
  | cons x rest ih =>
    cases i with
    | zero =>
      have hx : x = AnyJsxAttribute.jsxAttribute a := by simpa using hi
      subst hx
      have hstep : has_trailing_spread_prop_loop a (AnyJsxAttribute.jsxAttribute a :: rest) false
          = has_trailing_spread_prop_loop a rest true := by
        simp [has_trailing_spread_prop_loop]
      rw [hstep, has_trailing_spread_prop_loop_true_iff]
      constructor
      · rintro ⟨j, e, hj⟩
        exact ⟨j + 1, e, Nat.succ_pos j, by simpa using hj⟩
      · rintro ⟨j, e, hpos, hj⟩
        cases j with
        | zero => exact absurd hpos (Nat.lt_irrefl 0)
        | succ j => exact ⟨j, e, by simpa using hj⟩
    | succ i' =>
      have hi' : rest[i']? = some (AnyJsxAttribute.jsxAttribute a) := by simpa using hi
      have huniq' : ∀ j, rest[j]? = some (AnyJsxAttribute.jsxAttribute a) → j = i' := by
        intro j hj
        have := huniq (j + 1) (by simpa using hj)
        omega
      have hshift : (∃ (j : Nat) (e : AnyJsExpression), i' + 1 < j ∧
            (x :: rest)[j]? = some (AnyJsxAttribute.jsxSpreadAttribute e)) ↔
          ∃ (j : Nat) (e : AnyJsExpression), i' < j ∧ rest[j]? = some (AnyJsxAttribute.jsxSpreadAttribute e) := by
        constructor
        · rintro ⟨j, e, hlt, hj⟩
          cases j with
          | zero => omega
          | succ j => exact ⟨j, e, by omega, by simpa using hj⟩
        · rintro ⟨j, e, hlt, hj⟩
          exact ⟨j + 1, e, by omega, by simpa using hj⟩
      rw [hshift]
      cases x with
      | jsxAttribute b =>
        have hb : b ≠ a := by
          intro h
          subst h
          have := huniq 0 (by simp)
          omega
        have hstep : has_trailing_spread_prop_loop a (AnyJsxAttribute.jsxAttribute b :: rest) false
            = has_trailing_spread_prop_loop a rest false := by
          simp only [has_trailing_spread_prop_loop]
          rw [if_neg (by simpa using hb)]
        rw [hstep]
        exact ih i' hi' huniq'
      | jsxSpreadAttribute s =>
        have hstep : has_trailing_spread_prop_loop a (AnyJsxAttribute.jsxSpreadAttribute s :: rest) false
            = has_trailing_spread_prop_loop a rest false := by
          simp [has_trailing_spread_prop_loop]
        rw [hstep]
        exact ih i' hi' huniq'

/-- Witness for C3: in the list `alt {...props}` the attribute `alt` sits at
position 0 and the trailing-spread check agrees with the positional
characterization. -/
theorem has_trailing_spread_prop_position_witness :
    JsxAttributeList.has_trailing_spread_prop altThenSpreadList altAttr = true ↔
      ∃ (j : Nat) (e : AnyJsExpression), 0 < j ∧ altThenSpreadList[j]? = some (AnyJsxAttribute.jsxSpreadAttribute e) := by
  refine has_trailing_spread_prop_position altThenSpreadList altAttr 0 (by decide) ?_
  intro j hj
  match j with
  | 0 => rfl
  | 1 => simp [altThenSpreadList, spreadAttr] at hj
  | j + 2 => simp [altThenSpreadList] at hj

/-! Claim C5: the caller contract of `find_by_names`. -/

/-- Claim C5: duplicate names or more than 16 names are rejected at call
time, before the attribute list is scanned (the result does not depend on
the list), with a contract error distinct from a data-driven miss. -/
theorem find_by_names_contract (L : JsxAttributeList) (names : List String)
    (h : ¬ names.Nodup ∨ 16 < names.length) :
    (∃ e, JsxAttributeList.find_by_names L names = Except.error e) ∧
      JsxAttributeList.find_by_names L names = JsxAttributeList.find_by_names [] names := by
  unfold JsxAttributeList.find_by_names
  rcases h with h | h
  · simp only [if_neg h]
    exact ⟨⟨ContractViolation.duplicateNames, rfl⟩, by trivial⟩
  · by_cases hn : names.Nodup
    · simp only [if_pos hn, if_neg (show ¬ names.length ≤ 16 by omega)]
      exact ⟨⟨ContractViolation.tooManyNames, rfl⟩, by trivial⟩
    · simp only [if_neg hn]
      exact ⟨⟨ContractViolation.duplicateNames, rfl⟩, by trivial⟩

/-- Witness for C5: `find_by_names(["div","div"])` is rejected before any
scan of a non-empty list. -/
theorem find_by_names_contract_witness :
    (∃ e, JsxAttributeList.find_by_names altThenSpreadList ["div", "div"] = Except.error e) ∧
      JsxAttributeList.find_by_names altThenSpreadList ["div", "div"] =
        JsxAttributeList.find_by_names [] ["div", "div"] :=
  find_by_names_contract altThenSpreadList ["div", "div"] (Or.inl (by decide))

/-! Claim C7: `is_element` versus `is_custom_component`. -/

/-- Counterexample to C7 as stated: for an element whose name is
structurally missing, `is_element` and `is_custom_component` are both false,
so `is_element` is not the complement of `is_custom_component` on every
element. -/
theorem is_element_not_complement_on_missing_name :
    ¬ (namelessElement.is_element = !namelessElement.is_custom_component) := by
  decide

/-- Claim C7 amended: for every element whose name is present, exactly one of
`is_element` and `is_custom_component` holds, and `is_custom_component` is
true iff the name is a member name, a namespaced name or a reference
identifier; when the name is structurally missing both predicates are
false. -/
theorem is_element_complement_of_is_custom_component :
    (∀ (el : AnyJsxElement) (nm : AnyJsxElementName), el.name = some nm →
      (el.is_element = !el.is_custom_component) ∧
      (el.is_custom_component = true ↔
        ((∃ m, nm = AnyJsxElementName.jsxMemberName m) ∨
          (∃ ln, nm = AnyJsxElementName.jsxNamespaceName ln) ∨
          (∃ r, nm = AnyJsxElementName.jsxReferenceIdentifier r)))) ∧
    (∀ el : AnyJsxElement, el.name = none →
      el.is_element = false ∧ el.is_custom_component = false) := by
  constructor
  · intro el nm h
    unfold AnyJsxElement.is_element AnyJsxElement.is_custom_component
    rw [h]
    cases nm <;> simp [AnyJsxElementName.as_jsx_name]
  · intro el h
    unfold AnyJsxElement.is_element AnyJsxElement.is_custom_component
    rw [h]
    exact ⟨rfl, rfl⟩

/-- Witness for C7 (amended): the native tag `<div />`. -/
theorem is_element_complement_witness :
    (divElement.is_element = !divElement.is_custom_component) ∧
      (divElement.is_custom_component = true ↔
        ((∃ m, AnyJsxElementName.jsxName ⟨some "div"⟩ = AnyJsxElementName.jsxMemberName m) ∨
          (∃ ln, AnyJsxElementName.jsxName ⟨some "div"⟩ = AnyJsxElementName.jsxNamespaceName ln) ∨
          (∃ r, AnyJsxElementName.jsxName ⟨some "div"⟩ =
            AnyJsxElementName.jsxReferenceIdentifier r))) :=
  is_element_complement_of_is_custom_component.1 divElement (.jsxName ⟨some "div"⟩) rfl

/-! Claim C4: `find_by_name` returns the first matching named attribute. -/

/-- Specification predicate for claim C4: `o` is the first named attribute of
`L`, in source order, whose plain name text is `n`; spread entries are
skipped entirely, and `o` is `none` exactly when no named attribute of `L`
matches. -/
def FirstMatchSpec (n : String) (L : JsxAttributeList) (o : Option JsxAttribute) : Prop :=
  (∃ (a : JsxAttribute) (i : Nat), o = some a ∧ L[i]? = some (AnyJsxAttribute.jsxAttribute a) ∧
      a.jsx_name_text = some n ∧
      ∀ j, j < i → ∀ b, L[j]? = some (AnyJsxAttribute.jsxAttribute b) →
        b.jsx_name_text ≠ some n) ∨
  (o = none ∧ ∀ (i : Nat) b, L[i]? = some (AnyJsxAttribute.jsxAttribute b) →
      b.jsx_name_text ≠ some n)

/-- Prepending an entry the matcher rejects preserves the first-match
specification. -/
theorem FirstMatchSpec.skip (n : String) (x : AnyJsxAttribute) (rest : JsxAttributeList)
    (o : Option JsxAttribute)
    (hx : ∀ b, x = AnyJsxAttribute.jsxAttribute b → b.jsx_name_text ≠ some n)
    (h : FirstMatchSpec n rest o) : FirstMatchSpec n (x :: rest) o := by
  unfold FirstMatchSpec at h ⊢
  rcases h with ⟨a, i, ho, hat, hmatch, hprev⟩ | ⟨ho, hall⟩
  · left
    refine ⟨a, i + 1, ho, by simpa using hat, hmatch, ?_⟩
    intro j hj b hb
    cases j with
    | zero => exact hx b (by simpa using hb)
    | succ j => exact hprev j (by omega) b (by simpa using hb)
  · right
    refine ⟨ho, ?_⟩
    intro i b hb
    cases i with
    | zero => exact hx b (by simpa using hb)
    | succ i => exact hall i b (by simpa using hb)

/-- Claim C4: `find_by_name` never signals a syntax error, and its value is
the first named attribute in source order whose trimmed plain-name text
equals the searched name, with spread entries skipped; it is `none` on an
empty list or when nothing matches. -/
theorem find_by_name_first_match (L : JsxAttributeList) (n : String) :
    ∃ o, JsxAttributeList.find_by_name L n = Except.ok o ∧ FirstMatchSpec n L o := by
  refine ⟨L.findSome? (find_by_name_matcher n), rfl, ?_⟩
  induction L with
  | nil =>
    unfold FirstMatchSpec
    right
    refine ⟨rfl, ?_⟩
    intro i b h
    simp at h
  | cons x rest ih =>
    cases hm : find_by_name_matcher n x with
    | none =>
      have hcons : (x :: rest).findSome? (find_by_name_matcher n)
          = rest.findSome? (find_by_name_matcher n) := by
        simp [List.findSome?, hm]
      rw [hcons]
      refine FirstMatchSpec.skip n x rest _ ?_ ih
      intro b hb hcontra
      subst hb
      simp [find_by_name_matcher, hcontra] at hm
    | some a =>
      have hx : x = AnyJsxAttribute.jsxAttribute a ∧ a.jsx_name_text = some n := by
        cases x with
        | jsxSpreadAttribute e => simp [find_by_name_matcher] at hm
        | jsxAttribute b =>
          cases hb : b.jsx_name_text with
          | none => simp [find_by_name_matcher, hb] at hm
          | some t =>
            by_cases he : t = n
            · subst he
              simp [find_by_name_matcher, hb] at hm
              subst hm
              exact ⟨rfl, hb⟩
            · simp [find_by_name_matcher, hb, he] at hm
      obtain ⟨hxa, hmatch⟩ := hx
      have hcons : (x :: rest).findSome? (find_by_name_matcher n) = some a := by
        simp [List.findSome?, hm]
      rw [hcons]
      unfold FirstMatchSpec
      left
      refine ⟨a, 0, rfl, by rw [hxa]; simp, hmatch, ?_⟩
      intro j hj b hb
      omega

/-- Witness for C4: looking up `alt` in the list `{...props} alt` skips the
spread and finds `alt`. -/
theorem find_by_name_first_match_witness :
    ∃ o, JsxAttributeList.find_by_name spreadThenAltList "alt" = Except.ok o ∧
      FirstMatchSpec "alt" spreadThenAltList o :=
  find_by_name_first_match spreadThenAltList "alt"

/-! Claim C10: namespaced attribute names are skipped by both lookups. -/

/-- An entry on which the matcher yields `none` can be dropped from any list
without changing a `findSome?` scan. -/
theorem findSome?_middle_skip {α β : Type} (f : α → Option β) (x : α) (hx : f x = none) :
    ∀ (L1 L2 : List α), (L1 ++ x :: L2).findSome? f = (L1 ++ L2).findSome? f := by
  intro L1 L2
  induction L1 with
  | nil => simp [List.findSome?, hx]
  | cons y ys ih =>
    cases hy : f y <;> simp [List.findSome?, hy, ih]

/-- A named attribute with no plain-name text can be dropped from any list
without changing the `find_by_names` scan, whatever the current slot
state. -/
theorem find_by_names_loop_skip_attr (names : List String) (a : JsxAttribute)
    (ha : a.jsx_name_text = none) :
    ∀ (L1 L2 : JsxAttributeList) (results : List (Option JsxAttribute)),
      find_by_names_loop names (L1 ++ AnyJsxAttribute.jsxAttribute a :: L2) results =
        find_by_names_loop names (L1 ++ L2) results := by
  intro L1
  induction L1 with
  | nil =>
    intro L2 results
    simp [find_by_names_loop, ha]
  | cons y ys ih =>
    intro L2 results
    cases y with
    | jsxSpreadAttribute e =>
      simp only [List.cons_append, find_by_names_loop]
      exact ih L2 results
    | jsxAttribute b =>
      simp only [List.cons_append, find_by_names_loop]
      cases hb : b.jsx_name_text with
      | none =>
        simp only []
        exact ih L2 results
      | some nm =>
        simp only []
        cases hf : fillSlot nm b names results with
        | none =>
          simp only []
          exact ih L2 results
        | some r2 =>
          simp only []
          by_cases hall : r2.all Option.isSome
          · simp only [if_pos hall]
          · simp only [if_neg hall]
            exact ih L2 r2

/-- Claim C10: both `find_by_name` and `find_by_names` skip an attribute
whose name is namespaced — even when its local name token text equals a
searched name — and continue scanning past it, as if it were absent. -/
theorem namespaced_attribute_skipped
    (L1 L2 : JsxAttributeList) (a : JsxAttribute)
    (ns ln : Option JsxName)
    (h : a.name = some (AnyJsxAttributeName.jsxNamespaceName ns ln)) :
    (∀ n, JsxAttributeList.find_by_name (L1 ++ AnyJsxAttribute.jsxAttribute a :: L2) n =
        JsxAttributeList.find_by_name (L1 ++ L2) n) ∧
    (∀ names, JsxAttributeList.find_by_names (L1 ++ AnyJsxAttribute.jsxAttribute a :: L2) names =
        JsxAttributeList.find_by_names (L1 ++ L2) names) := by
  have htext : a.jsx_name_text = none := by
    simp [JsxAttribute.jsx_name_text, h, AnyJsxAttributeName.as_jsx_name]
  constructor
  · intro n
    unfold JsxAttributeList.find_by_name
    rw [findSome?_middle_skip (find_by_name_matcher n) _
      (by simp [find_by_name_matcher, htext]) L1 L2]
  · intro names
    unfold JsxAttributeList.find_by_names
    by_cases h1 : names.Nodup
    · by_cases h2 : names.length ≤ 16
      · simp only [if_pos h1, if_pos h2]
        rw [find_by_names_loop_skip_attr names a htext L1 L2]
      · simp only [if_pos h1, if_neg h2]
    · simp only [if_neg h1]

/-- Witness for C10: the namespaced attribute `xlink:href` is invisible to a
lookup of `href`, its own local name text. -/
theorem namespaced_attribute_skipped_witness :
    JsxAttributeList.find_by_name [AnyJsxAttribute.jsxAttribute xlinkHrefAttr] "href" =
      JsxAttributeList.find_by_name [] "href" := by
  have h := (namespaced_attribute_skipped [] [] xlinkHrefAttr
    (some ⟨some "xlink"⟩) (some ⟨some "href"⟩) rfl).1 "href"
  simpa using h

/-! Claim C1: characterization of `has_truthy_attribute`. -/

/-- Claim C1: `has_truthy_attribute(element, n)` is true iff name lookup for
`n` finds an attribute `a`, `a` either has no static value or its static
value is neither falsy nor has text exactly `"false"`, and no spread
attribute trails `a`; in particular `aria-hidden="false"` is not truthy and
a bare `aria-hidden` is. -/
theorem has_truthy_attribute_characterization :
    (∀ (el : AnyJsxElement) (n : String),
      el.has_truthy_attribute n = true ↔
        ∃ a, el.find_attribute_by_name n = some a ∧
          (a.as_static_value = none ∨
            ∃ v, a.as_static_value = some v ∧ v.is_falsy = false ∧ v.text ≠ "false") ∧
          el.has_trailing_spread_prop a = false) ∧
    AnyJsxElement.has_truthy_attribute ariaHiddenFalseElement "aria-hidden" = false ∧
    AnyJsxElement.has_truthy_attribute ariaHiddenBareElement "aria-hidden" = true := by
  refine ⟨?_, by decide, by decide⟩
  intro el n
  unfold AnyJsxElement.has_truthy_attribute
  cases hf : el.find_attribute_by_name n with
  | none => simp
  | some a =>
    simp only [Option.some.injEq, exists_eq_left']
    rw [Bool.and_eq_true]
    constructor
    · rintro ⟨hm, ht⟩
      constructor
      · cases hs : a.as_static_value with
        | none => exact Or.inl rfl
        | some v =>
          right
          simp only [hs] at hm
          rw [Bool.not_eq_true'] at hm
          rw [Bool.or_eq_false_iff] at hm
          obtain ⟨h1, h2⟩ := hm
          rw [beq_eq_false_iff_ne] at h2
          exact ⟨v, rfl, h1, h2⟩
      · rw [Bool.not_eq_true'] at ht
        exact ht
    · rintro ⟨hval, hspread⟩
      refine ⟨?_, ?_⟩
      · rcases hval with hnone | ⟨v, hv, hfalsy, htext⟩
        · simp only [hnone]
        · simp only [hv]
          rw [Bool.not_eq_true']
          rw [Bool.or_eq_false_iff]
          refine ⟨hfalsy, ?_⟩
          rw [beq_eq_false_iff_ne]
          exact htext
      · rw [Bool.not_eq_true']
        exact hspread

/-- Witness for C1: the bare `aria-hidden` element instantiates the
characterization. -/
theorem has_truthy_attribute_characterization_witness :
    AnyJsxElement.has_truthy_attribute ariaHiddenBareElement "aria-hidden" = true ↔
      ∃ a, ariaHiddenBareElement.find_attribute_by_name "aria-hidden" = some a ∧
        (a.as_static_value = none ∨
          ∃ v, a.as_static_value = some v ∧ v.is_falsy = false ∧ v.text ≠ "false") ∧
        ariaHiddenBareElement.has_trailing_spread_prop a = false :=
  has_truthy_attribute_characterization.1 ariaHiddenBareElement "aria-hidden"

/-! Claims C2, C8, C9: the accessibility classifier. -/

/-- The opening tag `<span aria-hidden>` of a native element. -/
def spanAriaHiddenOpening : JsxOpeningElement :=
  { name := some (.jsxName ⟨some "span"⟩)
    attributes := [AnyJsxAttribute.jsxAttribute ariaHiddenBareAttr] }

/-- The fragment recursion equals a `List.any` over the children. -/
theorem any_accessible_child_eq_any (cs : List AnyJsxChild) :
    any_accessible_child cs = cs.any fun c => (c.is_accessible_node).getD true := by
  induction cs with
  | nil => simp [any_accessible_child]
  | cons c rest ih => simp [any_accessible_child, ih]

/-- An optional accessibility verdict defaults to accessible: it counts as
accessible under `unwrap_or(true)` exactly when it is not a definite
`some false`. -/
theorem getD_true_ne_some_false (o : Option Bool) :
    (o.getD true = true) ↔ o ≠ some false := by
  cases o with
  | none => simp
  | some b => cases b <;> simp

/-- Claim C2: an element or self-closing-element child with a well-formed
opening structure is accessible iff the element is a custom component or its
`aria-hidden` attribute is not reliably truthy; a native element with a
reliably truthy `aria-hidden` is the only element case classified
inaccessible. -/
theorem element_child_accessibility :
    (∀ (op : JsxOpeningElement) (children : List AnyJsxChild),
      AnyJsxChild.is_accessible_node (.jsxElement (some op) children) =
        some ((AnyJsxElement.jsxOpeningElement op).is_custom_component
          || !(AnyJsxElement.jsxOpeningElement op).has_truthy_attribute "aria-hidden")) ∧
    (∀ e : JsxSelfClosingElement,
      AnyJsxChild.is_accessible_node (.jsxSelfClosingElement e) =
        some ((AnyJsxElement.jsxSelfClosingElement e).is_custom_component
          || !(AnyJsxElement.jsxSelfClosingElement e).has_truthy_attribute "aria-hidden")) ∧
    (∀ (op : JsxOpeningElement) (children : List AnyJsxChild),
      AnyJsxChild.is_accessible_node (.jsxElement (some op) children) = some false ↔
        (AnyJsxElement.jsxOpeningElement op).is_custom_component = false ∧
        (AnyJsxElement.jsxOpeningElement op).has_truthy_attribute "aria-hidden" = true) ∧
    (∀ e : JsxSelfClosingElement,
      AnyJsxChild.is_accessible_node (.jsxSelfClosingElement e) = some false ↔
        (AnyJsxElement.jsxSelfClosingElement e).is_custom_component = false ∧
        (AnyJsxElement.jsxSelfClosingElement e).has_truthy_attribute "aria-hidden" = true) := by
  have h1 : ∀ (op : JsxOpeningElement) (children : List AnyJsxChild),
      AnyJsxChild.is_accessible_node (.jsxElement (some op) children) =
        some ((AnyJsxElement.jsxOpeningElement op).is_custom_component
          || !(AnyJsxElement.jsxOpeningElement op).has_truthy_attribute "aria-hidden") := by
    intro op children
    simp [AnyJsxChild.is_accessible_node]
  have h2 : ∀ e : JsxSelfClosingElement,
      AnyJsxChild.is_accessible_node (.jsxSelfClosingElement e) =
        some ((AnyJsxElement.jsxSelfClosingElement e).is_custom_component
          || !(AnyJsxElement.jsxSelfClosingElement e).has_truthy_attribute "aria-hidden") := by
    intro e
    simp [AnyJsxChild.is_accessible_node]
  refine ⟨h1, h2, ?_, ?_⟩
  · intro op children
    rw [h1 op children]
    simp only [Option.some.injEq]
    rw [Bool.or_eq_false_iff, Bool.not_eq_false']
  · intro e
    rw [h2 e]
    simp only [Option.some.injEq]
    rw [Bool.or_eq_false_iff, Bool.not_eq_false']

/-- Witness for C2: the native child `<span aria-hidden>` instantiates the
element-child equation. -/
theorem element_child_accessibility_witness :
    AnyJsxChild.is_accessible_node (.jsxElement (some spanAriaHiddenOpening) []) =
      some ((AnyJsxElement.jsxOpeningElement spanAriaHiddenOpening).is_custom_component
        || !(AnyJsxElement.jsxOpeningElement spanAriaHiddenOpening).has_truthy_attribute
          "aria-hidden") :=
  element_child_accessibility.1 spanAriaHiddenOpening []

/-- Claim C8: an expression child with a present expression is inaccessible
exactly when the expression resolves to a statically falsy value; a
non-static expression is accessible; a structurally missing expression is
indeterminate. -/
theorem expression_child_accessibility :
    (∀ e : AnyJsExpression,
      AnyJsxChild.is_accessible_node (.jsxExpressionChild (some e)) = some false ↔
        ∃ v, e.as_static_value = some v ∧ v.is_falsy = true) ∧
    (∀ e : AnyJsExpression, e.as_static_value = none →
      AnyJsxChild.is_accessible_node (.jsxExpressionChild (some e)) = some true) ∧
    AnyJsxChild.is_accessible_node (.jsxExpressionChild none) = none := by
  have heq : ∀ e : AnyJsExpression,
      AnyJsxChild.is_accessible_node (.jsxExpressionChild (some e)) =
        some (match e.as_static_value with
              | none => true
              | some value => !value.is_falsy) := by
    intro e
    simp [AnyJsxChild.is_accessible_node]
  refine ⟨?_, ?_, ?_⟩
  · intro e
    rw [heq e]
    cases hs : e.as_static_value with
    | none => simp
    | some v =>
      simp only [Option.some.injEq]
      cases hb : v.is_falsy
      · simp [hb]
      · simp [hb]
  · intro e hnone
    rw [heq e]
    simp [hnone]
  · simp [AnyJsxChild.is_accessible_node]

/-- Witness for C8: a non-static expression child is classified
accessible. -/
theorem expression_child_accessibility_witness :
    AnyJsxChild.is_accessible_node (.jsxExpressionChild (some .otherNonStatic)) = some true :=
  expression_child_accessibility.2.1 AnyJsExpression.otherNonStatic rfl

/-- Claim C9: a fragment child always gets a definite verdict; it is
accessible iff some child is accessible, where an indeterminate child counts
as accessible inside the disjunction; a fragment with no children is not
accessible. -/
theorem fragment_accessibility :
    (∀ cs : List AnyJsxChild,
      AnyJsxChild.is_accessible_node (.jsxFragment cs) = some true ∨
      AnyJsxChild.is_accessible_node (.jsxFragment cs) = some false) ∧
    (∀ cs : List AnyJsxChild,
      AnyJsxChild.is_accessible_node (.jsxFragment cs) = some true ↔
        ∃ c ∈ cs, AnyJsxChild.is_accessible_node c ≠ some false) ∧
    AnyJsxChild.is_accessible_node (.jsxFragment []) = some false := by
  have hfrag : ∀ cs : List AnyJsxChild,
      AnyJsxChild.is_accessible_node (.jsxFragment cs) = some (any_accessible_child cs) := by
    intro cs
    simp [AnyJsxChild.is_accessible_node]
  refine ⟨?_, ?_, ?_⟩
  · intro cs
    rw [hfrag cs]
    cases any_accessible_child cs
    · right; rfl
    · left; rfl
  · intro cs
    rw [hfrag cs, any_accessible_child_eq_any]
    simp only [Option.some.injEq]
    rw [List.any_eq_true]
    constructor
    · rintro ⟨c, hc, hp⟩
      exact ⟨c, hc, (getD_true_ne_some_false _).mp hp⟩
    · rintro ⟨c, hc, hp⟩
      exact ⟨c, hc, (getD_true_ne_some_false _).mpr hp⟩
  · rw [hfrag []]
    simp [any_accessible_child]

/-- Witness for C9: a fragment with a single catch-all child is accessible
iff that child is not definitely inaccessible. -/
theorem fragment_accessibility_witness :
    AnyJsxChild.is_accessible_node (.jsxFragment [AnyJsxChild.otherChild]) = some true ↔
      ∃ c ∈ [AnyJsxChild.otherChild], AnyJsxChild.is_accessible_node c ≠ some false :=
  fragment_accessibility.2.1 [AnyJsxChild.otherChild]

/-! Claim C6: `find_by_names` refines `find_by_name` slot by slot. -/

/-- Filling a slot preserves the number of slots. -/
theorem fillSlot_length (nm : String) (att : JsxAttribute) :
    ∀ (names : List String) (results r2 : List (Option JsxAttribute)),
      fillSlot nm att names results = some r2 → r2.length = results.length := by
  intro names
  induction names with
  | nil =>
    intro results r2 h
    simp [fillSlot] at h
  | cons n ns ih =>
    intro results r2 h
    cases results with
    | nil => simp [fillSlot] at h
    | cons r rs =>
      simp only [fillSlot] at h
      split at h
      · injection h with h
        subst h
        simp
      · cases hrec : fillSlot nm att ns rs with
        | none => rw [hrec] at h; simp at h
        | some rs2 =>
          rw [hrec] at h
          injection h with h
          subst h
          simp [ih rs rs2 hrec]

/-- When `fillSlot` succeeds it has filled exactly one slot: the first empty
slot whose requested name is the scanned attribute's name. -/
theorem fillSlot_some_spec (nm : String) (att : JsxAttribute) :
    ∀ (names : List String) (results r2 : List (Option JsxAttribute)),
      fillSlot nm att names results = some r2 →
      ∃ j, j < names.length ∧ names[j]? = some nm ∧ results[j]? = some none ∧
        r2 = results.set j (some att) := by
  intro names
  induction names with
  | nil =>
    intro results r2 h
    simp [fillSlot] at h
  | cons n ns ih =>
    intro results r2 h
    cases results with
    | nil => simp [fillSlot] at h
    | cons r rs =>
      simp only [fillSlot] at h
      split at h
      · rename_i hc
        rw [Bool.and_eq_true] at hc
        obtain ⟨hr, hn⟩ := hc
        injection h with h
        subst h
        have hnm : n = nm := by simpa using hn
        have hrnone : r = none := Option.isNone_iff_eq_none.mp hr
        subst hnm
        subst hrnone
        exact ⟨0, by simp, by simp, by simp, rfl⟩
      · cases hrec : fillSlot nm att ns rs with
        | none => rw [hrec] at h; simp at h
        | some rs2 =>
          rw [hrec] at h
          injection h with h
          subst h
          obtain ⟨j, hj, h1, h2, h3⟩ := ih rs rs2 hrec
          refine ⟨j + 1, by simp; omega, by simpa using h1, by simpa using h2, ?_⟩
          rw [h3]
          rfl

/-- When `fillSlot` fails, no empty slot requests the scanned name. -/
theorem fillSlot_none_spec (nm : String) (att : JsxAttribute) :
    ∀ (names : List String) (results : List (Option JsxAttribute)),
      results.length = names.length →
      fillSlot nm att names results = none →
      ∀ i : Nat, results[i]? = some none → names[i]? ≠ some nm := by
  intro names
  induction names with
  | nil =>
    intro results hlen h i hri
    simp
  | cons n ns ih =>
    intro results hlen h i hri
    cases results with
    | nil => simp at hlen
    | cons r rs =>
      simp only [fillSlot] at h
      split at h
      · simp at h
      · rename_i hc
        cases hrec : fillSlot nm att ns rs with
        | some rs2 => rw [hrec] at h; simp at h
        | none =>
          cases i with
          | zero =>
            have hr : r = none := by simpa using hri
            subst hr
            intro hcon
            have hn : n = nm := by simpa using hcon
            subst hn
            apply hc
            simp
          | succ i =>
            have hlen' : rs.length = ns.length := by simpa using hlen
            have := ih rs hlen' hrec i (by simpa using hri)
            simpa using this

/-- The scan of `find_by_names` preserves the number of slots. -/
theorem find_by_names_loop_length (names : List String) :
    ∀ (attrs : JsxAttributeList) (results : List (Option JsxAttribute)),
      (find_by_names_loop names attrs results).length = results.length := by
  intro attrs
  induction attrs with
  | nil =>
    intro results
    simp [find_by_names_loop]
  | cons x rest ih =>
    intro results
    cases x with
    | jsxSpreadAttribute e =>
      simp only [find_by_names_loop]
      exact ih results
    | jsxAttribute b =>
      simp only [find_by_names_loop]
      cases hb : b.jsx_name_text with
      | none =>
        simp only []
        exact ih results
      | some nm =>
        simp only []
        cases hf : fillSlot nm b names results with
        | none =>
          simp only []
          exact ih results
        | some r2 =>
          simp only []
          have hr2 := fillSlot_length nm b names results r2 hf
          by_cases hall : r2.all Option.isSome = true
          · simp only [if_pos hall]
            exact hr2
          · simp only [if_neg hall]
            rw [ih r2]
            exact hr2

/-- On a duplicate-free list, positions holding the same element agree. -/
theorem nodup_getElem?_inj {names : List String} (h : names.Nodup) :
    ∀ (i j : Nat) (nm : String), names[i]? = some nm → names[j]? = some nm → i = j := by
  intro i j nm hi hj
  have hi' : i < names.length := by
    by_contra hc
    rw [List.getElem?_eq_none (Nat.le_of_not_lt hc)] at hi
    cases hi
  have hj' : j < names.length := by
    by_contra hc
    rw [List.getElem?_eq_none (Nat.le_of_not_lt hc)] at hj
    cases hj
  have hgi : names.get ⟨i, hi'⟩ = nm := by
    rw [List.getElem?_eq_getElem hi'] at hi
    injection hi
  have hgj : names.get ⟨j, hj'⟩ = nm := by
    rw [List.getElem?_eq_getElem hj'] at hj
    injection hj
  have heq : (⟨i, hi'⟩ : Fin names.length) = ⟨j, hj'⟩ :=
    (List.Nodup.get_inj_iff h).mp (by rw [hgi, hgj])
  simpa using heq

/-- Invariant of the `find_by_names` scan: an already-filled slot is left
unchanged, and an empty slot ends up holding exactly what a `find_by_name`
scan of the remaining attributes for that slot's name would return. Requires
pairwise-distinct names. -/
theorem find_by_names_loop_spec (names : List String) (hnd : names.Nodup) :
    ∀ (attrs : JsxAttributeList) (results : List (Option JsxAttribute)),
      results.length = names.length →
      ∀ (i : Nat) (ro : Option JsxAttribute) (nmi : String),
        results[i]? = some ro → names[i]? = some nmi →
        (find_by_names_loop names attrs results)[i]? =
          some (match ro with
                | some a => some a
                | none => attrs.findSome? (find_by_name_matcher nmi)) := by
  intro attrs
  induction attrs with
  | nil =>
    intro results hlen i ro nmi hro hnm
    simp only [find_by_names_loop]
    cases ro with
    | some a => exact hro
    | none => simpa [List.findSome?] using hro
  | cons x rest ih =>
    intro results hlen i ro nmi hro hnm
    cases x with
    | jsxSpreadAttribute e =>
      simp only [find_by_names_loop]
      rw [ih results hlen i ro nmi hro hnm]
      cases ro with
      | some a => rfl
      | none =>
        have hskip : List.findSome? (find_by_name_matcher nmi)
            (AnyJsxAttribute.jsxSpreadAttribute e :: rest) =
            List.findSome? (find_by_name_matcher nmi) rest := by
          simp [List.findSome?, find_by_name_matcher]
        rw [hskip]
    | jsxAttribute b =>
      cases hb : b.jsx_name_text with
      | none =>
        simp only [find_by_names_loop, hb]
        rw [ih results hlen i ro nmi hro hnm]
        cases ro with
        | some a => rfl
        | none =>
          have hskip : List.findSome? (find_by_name_matcher nmi)
              (AnyJsxAttribute.jsxAttribute b :: rest) =
              List.findSome? (find_by_name_matcher nmi) rest := by
            simp [List.findSome?, find_by_name_matcher, hb]
          rw [hskip]
      | some nm =>
        simp only [find_by_names_loop, hb]
        cases hf : fillSlot nm b names results with
        | none =>
          simp only []
          rw [ih results hlen i ro nmi hro hnm]
          cases ro with
          | some a => rfl
          | none =>
            have hne : nmi ≠ nm := by
              intro he
              subst he
              exact fillSlot_none_spec nmi b names results hlen hf i hro hnm
            have hskip : List.findSome? (find_by_name_matcher nmi)
                (AnyJsxAttribute.jsxAttribute b :: rest) =
                List.findSome? (find_by_name_matcher nmi) rest := by
              simp [List.findSome?, find_by_name_matcher, hb, Ne.symm hne]
            rw [hskip]
        | some r2 =>
          simp only []
          obtain ⟨j, hjlt, hjnm, hjres, hset⟩ := fillSlot_some_spec nm b names results r2 hf
          have hlen2 : r2.length = names.length := by
            rw [hset, List.length_set]
            exact hlen
          have hfound : List.findSome? (find_by_name_matcher nm)
              (AnyJsxAttribute.jsxAttribute b :: rest) = some b := by
            simp [List.findSome?, find_by_name_matcher, hb]
          by_cases hall : r2.all Option.isSome = true
          · rw [if_pos hall]
            by_cases hij : i = j
            · subst hij
              have hronone : ro = none := by
                have := hro.symm.trans hjres
                simpa using this
              subst hronone
              have hnmi : nmi = nm := by
                have := hnm.symm.trans hjnm
                simpa using this
              subst hnmi
              have hr2i : r2[i]? = some (some b) := by
                rw [hset]
                have hilen : i < results.length := by
                  rw [hlen]
                  exact hjlt
                simp [List.getElem?_set_self', hilen]
              rw [hr2i, hfound]
            · have hr2i : r2[i]? = some ro := by
                rw [hset, List.getElem?_set_ne (Ne.symm hij)]
                exact hro
              obtain ⟨bb, hbb⟩ : ∃ bb, ro = some bb := by
                have hmem : ro ∈ r2 := List.getElem?_mem hr2i
                have hsome := List.all_eq_true.mp hall ro hmem
                cases ro with
                | none => simp at hsome
                | some bb => exact ⟨bb, rfl⟩
              subst hbb
              rw [hr2i]
          · rw [if_neg hall]
            by_cases hij : i = j
            · subst hij
              have hronone : ro = none := by
                have := hro.symm.trans hjres
                simpa using this
              subst hronone
              have hnmi : nmi = nm := by
                have := hnm.symm.trans hjnm
                simpa using this
              subst hnmi
              have hr2i : r2[i]? = some (some b) := by
                rw [hset]
                have hilen : i < results.length := by
                  rw [hlen]
                  exact hjlt
                simp [List.getElem?_set_self', hilen]
              rw [ih r2 hlen2 i (some b) nmi hr2i hnm, hfound]
            · have hr2i : r2[i]? = some ro := by
                rw [hset, List.getElem?_set_ne (Ne.symm hij)]
                exact hro
              rw [ih r2 hlen2 i ro nmi hr2i hnm]
              cases ro with
              | some a => rfl
              | none =>
                have hne : nmi ≠ nm := by
                  intro he
                  subst he
                  exact hij (nodup_getElem?_inj hnd i j nmi hnm hjnm)
                have hskip : List.findSome? (find_by_name_matcher nmi)
                    (AnyJsxAttribute.jsxAttribute b :: rest) =
                    List.findSome? (find_by_name_matcher nmi) rest := by
                  simp [List.findSome?, find_by_name_matcher, hb, Ne.symm hne]
                rw [hskip]

/-- Claim C6: under the caller contract (pairwise-distinct names, at most 16
of them), the single left-to-right pass of `find_by_names`, early
termination included, puts into each slot exactly what `find_by_name` would
return for that slot's name. -/
theorem find_by_names_refines_find_by_name (L : JsxAttributeList) (names : List String)
    (h1 : names.Nodup) (h2 : names.length ≤ 16) :
    ∃ res, JsxAttributeList.find_by_names L names = Except.ok res ∧
      res.length = names.length ∧
      ∀ (i : Nat) (hi : i < names.length),
        res[i]? = (JsxAttributeList.find_by_name L names[i]).toOption := by
  refine ⟨find_by_names_loop names L (names.map fun _ => none), ?_, ?_, ?_⟩
  · unfold JsxAttributeList.find_by_names
    rw [if_pos h1, if_pos h2]
  · rw [find_by_names_loop_length]
    simp
  · intro i hi
    have hro : (names.map fun _ => (none : Option JsxAttribute))[i]? = some none := by
      rw [List.getElem?_map, List.getElem?_eq_getElem hi]
      rfl
    have hnm : names[i]? = some names[i] := List.getElem?_eq_getElem hi
    rw [find_by_names_loop_spec names h1 L _ (by simp) i none names[i] hro hnm]
    rfl

/-- An `<img src>` attribute list used by the C6 witness. -/
def imgAttrList : JsxAttributeList := [AnyJsxAttribute.jsxAttribute srcAttr]

/-- Witness for C6: looking up `["alt", "src"]` in `<img src>` matches the
two single-name lookups slot by slot. -/
theorem find_by_names_refines_find_by_name_witness :
    ∃ res, JsxAttributeList.find_by_names imgAttrList ["alt", "src"] = Except.ok res ∧
      res.length = (["alt", "src"] : List String).length ∧
      ∀ (i : Nat) (hi : i < (["alt", "src"] : List String).length),
        res[i]? =
          (JsxAttributeList.find_by_name imgAttrList
            (["alt", "src"] : List String)[i]).toOption :=
  find_by_names_refines_find_by_name imgAttrList ["alt", "src"] (by decide) (by decide)

end Biome
